import Mathlib

/-!
Verification of the rwanda-geo hierarchy index and search engine
(src/helpers.ts, and the lazy-loader helpers variant of the same
package).

Strings from the JavaScript source are modelled over their character
lists; the case folding, trimming and splitting helpers below mirror
the ASCII behaviour of the JavaScript string methods used by the
library.  Similarity scores that JavaScript stores as floating-point
numbers are modelled as rationals.  The unbounded while loops that walk
parentCode links are modelled with an explicit fuel argument; every
statement about them either holds for all fuel values or is
instantiated with fuel that dominates the dataset size, which bounds
any terminating run of the JavaScript loop.
-/

namespace RwandaGeo

/-- Administrative unit record, following the GeoUnit interface of
types.ts.  The optional geographic center is advisory floating-point
metadata unused by every operation modelled here, so it is omitted. -/
structure AdministrativeUnit where
  id : Nat
  code : String
  name : String
  slug : String
  shortCode : String
  parentCode : Option String
deriving DecidableEq

/-- Record store: the five flat collections imported by helpers.ts
(provinces.json, districts.json, sectors.json, cells.json,
villages.json). -/
structure Dataset where
  provinces : List AdministrativeUnit
  districts : List AdministrativeUnit
  sectors : List AdministrativeUnit
  cells : List AdministrativeUnit
  villages : List AdministrativeUnit
deriving DecidableEq

/-- Concatenation of the five collections in the order helpers.ts
iterates them, both when populating the allUnits map (lines 19-23) and
when the search functions spread the five getAll results into one
array. -/
def allList (d : Dataset) : List AdministrativeUnit :=
  d.provinces ++ d.districts ++ d.sectors ++ d.cells ++ d.villages

/-- Lookup in the allUnits map (getByCode, helpers.ts 106-108).  The
map is built by inserting every unit under its code in collection
order and Map.set overwrites, so the unit inserted last wins: the map
is modelled by searching the reversed insertion sequence. -/
def getByCode (d : Dataset) (code : String) : Option AdministrativeUnit :=
  (allList d).reverse.find? (fun u => u.code == code)

/-- Lowercase one ASCII character, as String.prototype.toLowerCase
does on ASCII input. -/
def toLowerChar (c : Char) : Char :=
  if 'A' ≤ c ∧ c ≤ 'Z' then Char.ofNat (c.toNat + 32) else c

/-- Uppercase one ASCII character, as String.prototype.toUpperCase
does on ASCII input. -/
def toUpperChar (c : Char) : Char :=
  if 'a' ≤ c ∧ c ≤ 'z' then Char.ofNat (c.toNat - 32) else c

/-- Model of String.prototype.toLowerCase (ASCII range). -/
def strLower (s : String) : String := ⟨s.data.map toLowerChar⟩

/-- Model of String.prototype.toUpperCase (ASCII range). -/
def strUpper (s : String) : String := ⟨s.data.map toUpperChar⟩

/-- Whitespace test used by the trim model. -/
def isWsChar (c : Char) : Bool :=
  c = ' ' || c = '\t' || c = '\n' || c = '\r'

/-- Model of String.prototype.trim. -/
def strTrim (s : String) : String :=
  ⟨((s.data.dropWhile isWsChar).reverse.dropWhile isWsChar).reverse⟩

/-- Split a character list at every occurrence of the separator, as
String.prototype.split does with a one-character separator: the result
is never empty and keeps empty groups. -/
def splitOnChar (sep : Char) : List Char → List (List Char)
  | [] => [[]]
  | c :: rest =>
    let r := splitOnChar sep rest
    if c = sep then [] :: r
    else
      match r with
      | [] => [[c]]
      | g :: gs => (c :: g) :: gs

/-- Model of String.prototype.startsWith. -/
def strStartsWith (s pre : String) : Bool :=
  pre.data.isPrefixOf s.data

/-- Model of String.prototype.includes (substring containment). -/
def strIncludes (s sub : String) : Bool :=
  (List.range (s.data.length + 1)).any (fun i => sub.data.isPrefixOf (s.data.drop i))

/-- The five administrative levels (the string union type of
helpers.ts). -/
inductive Level
  | province
  | district
  | sector
  | cell
  | village
deriving DecidableEq

/-- Uppercase ASCII letter test, for the character class of the code
format regular expression. -/
def isUpperAlpha (c : Char) : Bool := decide ('A' ≤ c) && decide (c ≤ 'Z')

/-- Code format check of helpers.ts 213-218: the anchored regular
expression RW dash two uppercase letters, then zero to four groups of
dash plus three uppercase letters, decided here on the dash-split
segments of the string (a string matches the regular expression exactly
when its split has this shape). -/
def isValidCode (code : String) : Bool :=
  match splitOnChar '-' code.data with
  | rw :: p2 :: rest =>
      rw == "RW".data && p2.length == 2 && p2.all isUpperAlpha &&
        decide (rest.length ≤ 4) && rest.all (fun g => g.length == 3 && g.all isUpperAlpha)
  | _ => false

/-- Level classification of helpers.ts 225-237: split the code on
dashes, require the first segment to be RW, then classify by the
number of remaining segments.  The early return for an empty code in
the source is subsumed: an empty string splits to one empty segment,
which is not RW. -/
def getCodeLevel (code : String) : Option Level :=
  let parts := splitOnChar '-' code.data
  if parts.headD [] = "RW".data then
    let segs := parts.length - 1
    if segs = 1 then some .province
    else if segs = 2 then some .district
    else if segs = 3 then some .sector
    else if segs = 4 then some .cell
    else if 5 ≤ segs then some .village
    else none
  else none

/-- Collection selector of helpers.ts 176-191 (getByLevel). -/
def getByLevel (d : Dataset) : Level → List AdministrativeUnit
  | .province => d.provinces
  | .district => d.districts
  | .sector => d.sectors
  | .cell => d.cells
  | .village => d.villages

/-- The childLevelMap object of getDirectChildren (helpers.ts
285-290): village is not a key, so it maps to the absent result. -/
def childLevelMap : Level → Option Level
  | .province => some .district
  | .district => some .sector
  | .sector => some .cell
  | .cell => some .village
  | .village => none

/-- The validHierarchy object of validateParentChildRelationship
(helpers.ts 521-526).  Each legal parent level maps to its single
legal child level; village is not a key. -/
def validChildLevel : Level → Option Level
  | .province => some .district
  | .district => some .sector
  | .sector => some .cell
  | .cell => some .village
  | .village => none

/-- Loop body of getHierarchy (helpers.ts 124-133): repeatedly resolve
parentCode and prepend the parent, stopping when the parent is absent
or does not resolve.  The fuel argument bounds the number of
iterations; the JavaScript loop has no such bound and diverges on a
cyclic dataset, and every terminating run is reproduced by a large
enough fuel. -/
def walkUp (d : Dataset) : Nat → AdministrativeUnit → List AdministrativeUnit → List AdministrativeUnit
  | 0, _, acc => acc
  | fuel + 1, cur, acc =>
    match cur.parentCode with
    | none => acc
    | some pc =>
      match getByCode d pc with
      | some parent => walkUp d fuel parent (parent :: acc)
      | none => acc

/-- Loop body of getFullHierarchy (helpers.ts 261-267), written with
the branches in the order of that source (bail out first when the
parent does not resolve). -/
def walkUpFull (d : Dataset) : Nat → AdministrativeUnit → List AdministrativeUnit → List AdministrativeUnit
  | 0, _, acc => acc
  | fuel + 1, cur, acc =>
    match cur.parentCode with
    | none => acc
    | some pc =>
      match getByCode d pc with
      | none => acc
      | some parent => walkUpFull d fuel parent (parent :: acc)

/-- Fuel that dominates every terminating ancestor walk: a walk that
never revisits a unit performs fewer steps than the total unit
count. -/
def hierarchyFuel (d : Dataset) : Nat := (allList d).length + 1

/-- Ancestor chain of helpers.ts 115-136 (getHierarchy): empty for an
unknown code, otherwise the walk from the unit to its root, root
first. -/
def getHierarchy (d : Dataset) (code : String) : List AdministrativeUnit :=
  match getByCode d code with
  | none => []
  | some u => walkUp d (hierarchyFuel d) u [u]

/-- Ancestor chain of helpers.ts 254-270 (getFullHierarchy). -/
def getFullHierarchy (d : Dataset) (code : String) : List AdministrativeUnit :=
  match getByCode d code with
  | none => []
  | some u => walkUpFull d (hierarchyFuel d) u [u]

/-- Direct children of helpers.ts 277-298 (getDirectChildren): resolve
the parent, classify its level, map it to the child level, then filter
the child-level collection by parentCode. -/
def getDirectChildren (d : Dataset) (parentCode : String) : List AdministrativeUnit :=
  match getByCode d parentCode with
  | none => []
  | some _ =>
    match getCodeLevel parentCode with
    | none => []
    | some parentLevel =>
      match childLevelMap parentLevel with
      | none => []
      | some childLevel =>
        (getByLevel d childLevel).filter (fun child => child.parentCode == some parentCode)

/-- Levenshtein inner recursion: distance between a nonempty first
string (head a, tail s) and the second string, given the distance
function f for the tail s.  Together with levAux this computes the
three-way minimum recurrence (delete, insert, substitute, each cost 1)
that the DP matrix of helpers.ts 338-356 tabulates. -/
def levWith (f : List Char → Nat) (a : Char) (s : List Char) : List Char → Nat
  | [] => s.length + 1
  | b :: t =>
    min (min (levWith f a s t + 1) (f (b :: t) + 1))
      (f t + (if a = b then 0 else 1))

/-- Levenshtein edit distance on character lists (the recurrence of
the DP matrix of helpers.ts 338-356). -/
def levAux : List Char → List Char → Nat
  | [], t => t.length
  | a :: s, t => levWith (levAux s) a s t

/-- Levenshtein edit distance between two strings (levenshteinDistance
of helpers.ts 338-356). -/
def levenshteinDistance (s1 s2 : String) : Nat :=
  levAux s1.data s2.data

/-- Model of Array.prototype.slice(0, lim): a negative end counts from
the end of the array, a nonnegative end truncates. -/
def jsSliceZero {α : Type} (lim : Int) (l : List α) : List α :=
  let e : Int := if lim < 0 then (l.length : Int) + lim else lim
  l.take e.toNat

/-- Insertion step of the sort model: walk past every element whose
key is at least the key of x, so x lands after the existing elements
it ties with. -/
def insertKeyDesc {α β : Type} [LinearOrder β] (key : α → β) (x : α) : List α → List α
  | [] => [x]
  | y :: ys => if key x ≤ key y then y :: insertKeyDesc key x ys else x :: y :: ys

/-- Model of Array.prototype.sort with a comparator that orders by a
numeric key, descending (the score and priority sorts of
helpers.ts). -/
def sortKeyDesc {α β : Type} [LinearOrder β] (key : α → β) (l : List α) : List α :=
  l.foldr (insertKeyDesc key) []

/-- One search result of fuzzySearchByName: a unit with its similarity
score. -/
structure ScoredUnit where
  unit : AdministrativeUnit
  score : ℚ
deriving DecidableEq

/-- Similarity score assigned inline by fuzzySearchByName (helpers.ts
384): one minus the distance between the normalized query and the
lowercased name, divided by the longer of the normalized query and the
raw name. -/
def fuzzyScore (nq name : String) : ℚ :=
  1 - (levenshteinDistance nq (strLower name) : ℚ) /
    ((max nq.data.length name.data.length : Nat) : ℚ)

/-- Fuzzy search of helpers.ts 365-392 (fuzzySearchByName): lowercase
and trim the query, keep every unit whose name is within the distance
threshold together with its score, sort by score descending, then
slice to the limit. -/
def fuzzySearchByName (d : Dataset) (query : String) (threshold lim : Int) : List ScoredUnit :=
  let nq := strTrim (strLower query)
  let results := (allList d).filterMap (fun u =>
    if (levenshteinDistance nq (strLower u.name) : Int) ≤ threshold then
      some ⟨u, fuzzyScore nq u.name⟩
    else none)
  jsSliceZero lim (sortKeyDesc (fun r => r.score) results)

/-- Partial code search of helpers.ts 400-413 (searchByPartialCode):
uppercase and trim the query, keep units whose code starts with it,
slice to the limit. -/
def searchByPartialCode (d : Dataset) (partCode : String) (lim : Int) : List AdministrativeUnit :=
  let normalized := strTrim (strUpper partCode)
  jsSliceZero lim ((allList d).filter (fun u => strStartsWith u.code normalized))

/-- Match kind of a suggestion (exact, substring, fuzzy). -/
inductive MatchType
  | exact
  | sub
  | fuzzy
deriving DecidableEq

/-- Field a suggestion matched on. -/
inductive MatchField
  | name
  | code
  | slug
deriving DecidableEq

/-- One autocomplete suggestion of getSuggestions. -/
structure Suggestion where
  unit : AdministrativeUnit
  type : MatchType
  matchField : MatchField
deriving DecidableEq

/-- The typePriority object of getSuggestions (helpers.ts 471). -/
def typePriority : MatchType → Nat
  | .exact => 3
  | .sub => 2
  | .fuzzy => 1

/-- Per-unit body of getSuggestions (helpers.ts 444-468): exact name,
code or slug match first, then substring match, and only otherwise,
and only while the accumulated list is still shorter than the limit, a
fuzzy name match within distance 3.  The slug comparisons use the raw
slug, as in the source. -/
def suggestStep (lim : Int) (nq : String) (acc : List Suggestion) (u : AdministrativeUnit) : List Suggestion :=
  if strLower u.name == nq then acc ++ [⟨u, .exact, .name⟩]
  else if strLower u.code == nq then acc ++ [⟨u, .exact, .code⟩]
  else if u.slug == nq then acc ++ [⟨u, .exact, .slug⟩]
  else if strIncludes (strLower u.name) nq then acc ++ [⟨u, .sub, .name⟩]
  else if strIncludes (strLower u.code) nq then acc ++ [⟨u, .sub, .code⟩]
  else if strIncludes u.slug nq then acc ++ [⟨u, .sub, .slug⟩]
  else if (acc.length : Int) < lim then
    if levenshteinDistance nq (strLower u.name) ≤ 3 then acc ++ [⟨u, .fuzzy, .name⟩]
    else acc
  else acc

/-- Autocomplete of helpers.ts 421-475 (getSuggestions): accumulate
suggestions over all units, sort by match-type priority descending,
slice to the limit. -/
def getSuggestions (d : Dataset) (query : String) (lim : Int) : List Suggestion :=
  let nq := strTrim (strLower query)
  let suggestions := (allList d).foldl (suggestStep lim nq) []
  jsSliceZero lim (sortKeyDesc (fun s => typePriority s.type) suggestions)

/-- Result record of validateParentChildRelationship.  The error
messages of the source are abbreviated; only their presence is
modelled. -/
structure ParentChildValidation where
  isValid : Bool
  error : Option String
  parentLevel : Option Level
  childLevel : Option Level
deriving DecidableEq

/-- Parent-child validation of helpers.ts 483-539
(validateParentChildRelationship): both codes must resolve, both
levels must classify, the child must declare exactly this parent, and
the parent level must map to the child level in the hierarchy
ladder. -/
def validateParentChildRelationship (d : Dataset) (parentCode childCode : String) : ParentChildValidation :=
  match getByCode d parentCode with
  | none => ⟨false, some "parent code does not exist", none, none⟩
  | some _ =>
    match getByCode d childCode with
    | none => ⟨false, some "child code does not exist", none, none⟩
    | some child =>
      match getCodeLevel parentCode, getCodeLevel childCode with
      | some parentLevel, some childLevel =>
        if child.parentCode ≠ some parentCode then
          ⟨false, some "child has a different parent", some parentLevel, some childLevel⟩
        else if validChildLevel parentLevel = some childLevel then
          ⟨true, none, some parentLevel, some childLevel⟩
        else
          ⟨false, some "invalid hierarchy", some parentLevel, some childLevel⟩
      | _, _ => ⟨false, some "invalid code levels", none, none⟩

/-- Issue classification of validateHierarchyIntegrity. -/
inductive IssueType
  | orphaned
  | invalidParent
  | circularReference
  | missingUnit
deriving DecidableEq

/-- One issue reported by validateHierarchyIntegrity.  Messages are
abbreviated; only their presence is modelled. -/
structure Issue where
  type : IssueType
  message : String
  code : Option String
deriving DecidableEq

/-- Aggregate counts of validateHierarchyIntegrity. -/
structure IntegritySummary where
  totalUnits : Nat
  orphanedUnits : Nat
  invalidParents : Nat
  circularReferences : Nat
  missingUnits : Nat
deriving DecidableEq

/-- Result record of validateHierarchyIntegrity. -/
structure IntegrityReport where
  isValid : Bool
  issues : List Issue
  summary : IntegritySummary
deriving DecidableEq

/-- First audit pass over one unit (helpers.ts 621-657): an orphaned
issue when the parent does not resolve; otherwise a circular-reference
issue when the ancestor chain revisits the code before its final
position, and an invalid-parent issue when the declared relationship
fails validation. -/
def unitIssuesPass1 (d : Dataset) (u : AdministrativeUnit) : List Issue :=
  match u.parentCode with
  | none => []
  | some pc =>
    match getByCode d pc with
    | none => [⟨.orphaned, "unit has non-existent parent", some u.code⟩]
    | some _ =>
      let hcodes := (getFullHierarchy d u.code).map (fun h => h.code)
      let circ : List Issue :=
        if hcodes.contains u.code && !(hcodes.indexOf u.code == hcodes.length - 1) then
          [⟨.circularReference, "circular reference detected in hierarchy", some u.code⟩]
        else []
      let val := validateParentChildRelationship d pc u.code
      let inv : List Issue :=
        if val.isValid then [] else [⟨.invalidParent, "invalid parent-child relationship", some u.code⟩]
      circ ++ inv

/-- Expected ancestor-chain length of the second audit pass
(helpers.ts 663-666), one ternary chain on the classified level. -/
def expectedChainLength (code : String) : Nat :=
  match getCodeLevel code with
  | some .village => 5
  | some .cell => 4
  | some .sector => 3
  | some .district => 2
  | _ => 1

/-- Second audit pass over one unit (helpers.ts 660-677): a
missing-unit issue when the ancestor chain length differs from the
expected depth of the classified level. -/
def unitIssuesPass2 (d : Dataset) (u : AdministrativeUnit) : List Issue :=
  match u.parentCode with
  | none => []
  | some _ =>
    if (getFullHierarchy d u.code).length ≠ expectedChainLength u.code then
      [⟨.missingUnit, "incomplete hierarchy", some u.code⟩]
    else []

/-- Whole-dataset audit of helpers.ts 587-690
(validateHierarchyIntegrity): both passes over every unit in
collection order, the flat issue list, the per-type counts and the
total unit count; the report is valid exactly when the issue list is
empty. -/
def validateHierarchyIntegrity (d : Dataset) : IntegrityReport :=
  let all := allList d
  let issues := (all.map (unitIssuesPass1 d)).flatten ++ (all.map (unitIssuesPass2 d)).flatten
  ⟨issues.isEmpty, issues,
    ⟨all.length,
      issues.countP (fun i => i.type == .orphaned),
      issues.countP (fun i => i.type == .invalidParent),
      issues.countP (fun i => i.type == .circularReference),
      issues.countP (fun i => i.type == .missingUnit)⟩⟩

/-- Membership check of the lazy-loader helpers variant of this
package (isValidCode there is allUnitsMap.has(code), the same map that
getByCode reads). -/
def isValidCodeLazy (d : Dataset) (code : String) : Bool :=
  (getByCode d code).isSome

/-- Adjacency of two classified levels in the canonical ladder: both
classifications must succeed and the parent level must map to the
child level in the validHierarchy table. -/
def levelsAdjacentB (p c : Option Level) : Bool :=
  match p, c with
  | some pl, some cl => validChildLevel pl == some cl
  | _, _ => false

/-- Modelled from the spec: the well-formedness invariants of section
3 of the specification for the shipped dataset, which is generated
outside src (the five JSON collections are build artifacts).  Codes
are globally unique, provinces are roots, and every other unit has a
parent in the collection one level up. -/
def DatasetInvariants (d : Dataset) : Prop :=
  ((allList d).map (fun u => u.code)).Nodup ∧
  (∀ u ∈ d.provinces, u.parentCode = none) ∧
  (∀ u ∈ d.districts, ∃ p ∈ d.provinces, u.parentCode = some p.code) ∧
  (∀ u ∈ d.sectors, ∃ p ∈ d.districts, u.parentCode = some p.code) ∧
  (∀ u ∈ d.cells, ∃ p ∈ d.sectors, u.parentCode = some p.code) ∧
  (∀ u ∈ d.villages, ∃ p ∈ d.cells, u.parentCode = some p.code)

instance (d : Dataset) : Decidable (DatasetInvariants d) := by
  unfold DatasetInvariants
  infer_instance

/-- Modelled from the spec: one province of the shipped dataset, in
the documented code scheme (README data overview). -/
def demoProvince : AdministrativeUnit :=
  ⟨1, "RW-01", "Kigali City", "kigali-city", "1", none⟩

/-- Modelled from the spec: one district of the shipped dataset. -/
def demoDistrict : AdministrativeUnit :=
  ⟨1, "RW-D-01", "Gasabo", "gasabo", "01", some "RW-01"⟩

/-- Modelled from the spec: one sector of the shipped dataset. -/
def demoSector : AdministrativeUnit :=
  ⟨1, "RW-S-001", "Bumbogo", "bumbogo", "001", some "RW-D-01"⟩

/-- Modelled from the spec: one cell of the shipped dataset. -/
def demoCell : AdministrativeUnit :=
  ⟨1, "RW-C-0001", "Bumbogo", "bumbogo-1", "0001", some "RW-S-001"⟩

/-- Modelled from the spec: one village of the shipped dataset. -/
def demoVillage1 : AdministrativeUnit :=
  ⟨1, "RW-V-00001", "Bumbogo", "bumbogo-2", "00001", some "RW-C-0001"⟩

/-- Modelled from the spec: a second village of the shipped
dataset. -/
def demoVillage2 : AdministrativeUnit :=
  ⟨2, "RW-V-00002", "Nyagatovu", "nyagatovu", "00002", some "RW-C-0001"⟩

/-- Modelled from the spec: a representative excerpt of the shipped
dataset, one full ancestor chain plus a sibling village, with codes in
the documented scheme (README data overview: RW-01, RW-D-01, RW-S-001,
RW-C-0001, RW-V-00001).  It satisfies the section 3 invariants, see
DatasetInvariants. -/
def demo : Dataset :=
  ⟨[demoProvince], [demoDistrict], [demoSector], [demoCell], [demoVillage1, demoVillage2]⟩

/-- Small dataset with one-character names, used to instantiate the
search theorems on inputs whose rational arithmetic stays readable. -/
def tinyProvince : AdministrativeUnit :=
  ⟨1, "RW-01", "a", "a", "1", none⟩

/-- Second unit of the small search dataset. -/
def tinyDistrict : AdministrativeUnit :=
  ⟨1, "RW-D-01", "b", "b", "01", some "RW-01"⟩

/-- Small dataset for instantiating the search theorems. -/
def tiny : Dataset :=
  ⟨[tinyProvince], [tinyDistrict], [], [], []⟩

end RwandaGeo

namespace RwandaGeo

/-! Helper lemmas about the embedded operations. -/

theorem getByCode_code_eq {d : Dataset} {c : String} {u : AdministrativeUnit}
    (h : getByCode d c = some u) : u.code = c := by
  have hp := List.find?_some h
  simpa using hp

theorem find?_code_self (l : List AdministrativeUnit) (u : AdministrativeUnit)
    (hm : u ∈ l) (hnd : (l.map (fun v => v.code)).Nodup) :
    l.find? (fun v => v.code == u.code) = some u := by
  induction l with
  | nil => cases hm
  | cons h tl ih =>
    rcases List.mem_cons.mp hm with rfl | hmem
    · simp [List.find?_cons]
    · have hnd' := hnd
      rw [List.map_cons, List.nodup_cons] at hnd'
      have hne : h.code ≠ u.code := by
        intro he
        exact hnd'.1 (he ▸ List.mem_map_of_mem (fun v => v.code) hmem)
      have hb : (h.code == u.code) = false := by simp [hne]
      rw [List.find?_cons, hb]
      exact ih hmem hnd'.2

theorem getByCode_self {d : Dataset} {u : AdministrativeUnit}
    (hm : u ∈ allList d)
    (hnd : ((allList d).map (fun v => v.code)).Nodup) :
    getByCode d u.code = some u := by
  unfold getByCode
  apply find?_code_self
  · exact List.mem_reverse.mpr hm
  · rw [List.map_reverse]
    exact List.nodup_reverse.mpr hnd

theorem getByCode_none {d : Dataset} {c : String}
    (h : ∀ u ∈ allList d, u.code ≠ c) : getByCode d c = none := by
  unfold getByCode
  refine List.find?_eq_none.mpr ?_
  intro u hu
  simpa using h u (List.mem_reverse.mp hu)

theorem walkUp_getLast? (d : Dataset) :
    ∀ (fuel : Nat) (cur x : AdministrativeUnit) (xs : List AdministrativeUnit),
      (walkUp d fuel cur (x :: xs)).getLast? = (x :: xs).getLast? := by
  intro fuel
  induction fuel with
  | zero => intro cur x xs; rfl
  | succ n ih =>
    intro cur x xs
    cases hpc : cur.parentCode with
    | none => simp [walkUp, hpc]
    | some pc =>
      cases hgb : getByCode d pc with
      | none => simp [walkUp, hpc, hgb]
      | some parent =>
        simp only [walkUp, hpc, hgb]
        rw [ih parent parent (x :: xs)]
        exact List.getLast?_cons_cons

theorem walkUp_chain' (d : Dataset) :
    ∀ (fuel : Nat) (cur : AdministrativeUnit) (xs : List AdministrativeUnit),
      List.Chain' (fun a b => b.parentCode = some a.code) (cur :: xs) →
      List.Chain' (fun a b => b.parentCode = some a.code) (walkUp d fuel cur (cur :: xs)) := by
  intro fuel
  induction fuel with
  | zero => intro cur xs h; exact h
  | succ n ih =>
    intro cur xs h
    cases hpc : cur.parentCode with
    | none => simpa [walkUp, hpc] using h
    | some pc =>
      cases hgb : getByCode d pc with
      | none => simpa [walkUp, hpc, hgb] using h
      | some parent =>
        have hcode : parent.code = pc := getByCode_code_eq hgb
        have hch : List.Chain' (fun a b => b.parentCode = some a.code) (parent :: cur :: xs) :=
          List.chain'_cons.mpr ⟨by rw [hpc, hcode], h⟩
        simpa [walkUp, hpc, hgb] using ih parent (cur :: xs) hch

theorem walkUp_dangling (d : Dataset) (fuel : Nat) (u : AdministrativeUnit) (pc : String)
    (hpc : u.parentCode = some pc) (hgb : getByCode d pc = none) :
    walkUp d fuel u [u] = [u] := by
  cases fuel with
  | zero => rfl
  | succ n => simp [walkUp, hpc, hgb]

theorem walkUp_eq_walkUpFull (d : Dataset) :
    ∀ (fuel : Nat) (cur : AdministrativeUnit) (acc : List AdministrativeUnit),
      walkUp d fuel cur acc = walkUpFull d fuel cur acc := by
  intro fuel
  induction fuel with
  | zero => intro cur acc; rfl
  | succ n ih =>
    intro cur acc
    cases hpc : cur.parentCode with
    | none => simp [walkUp, walkUpFull, hpc]
    | some pc =>
      cases hgb : getByCode d pc with
      | none => simp [walkUp, walkUpFull, hpc, hgb]
      | some parent => simp [walkUp, walkUpFull, hpc, hgb, ih]

theorem insertKeyDesc_perm {α β : Type} [LinearOrder β] (key : α → β) (x : α) :
    ∀ l : List α, List.Perm (insertKeyDesc key x l) (x :: l) := by
  intro l
  induction l with
  | nil => exact List.Perm.refl _
  | cons y ys ih =>
    by_cases hc : key x ≤ key y
    · rw [insertKeyDesc, if_pos hc]
      exact (ih.cons y).trans (List.Perm.swap x y ys)
    · rw [insertKeyDesc, if_neg hc]

theorem sortKeyDesc_perm {α β : Type} [LinearOrder β] (key : α → β) (l : List α) :
    List.Perm (sortKeyDesc key l) l := by
  induction l with
  | nil => exact List.Perm.refl _
  | cons y ys ih =>
    have h1 : sortKeyDesc key (y :: ys) = insertKeyDesc key y (sortKeyDesc key ys) := rfl
    rw [h1]
    exact (insertKeyDesc_perm key y (sortKeyDesc key ys)).trans (ih.cons y)

theorem insertKeyDesc_pairwise {α β : Type} [LinearOrder β] (key : α → β) (x : α) :
    ∀ l : List α, List.Pairwise (fun a b => key b ≤ key a) l →
      List.Pairwise (fun a b => key b ≤ key a) (insertKeyDesc key x l) := by
  intro l
  induction l with
  | nil => intro _; simp [insertKeyDesc]
  | cons y ys ih =>
    intro hp
    rcases List.pairwise_cons.mp hp with ⟨hy, hys⟩
    by_cases hc : key x ≤ key y
    · rw [insertKeyDesc, if_pos hc]
      refine List.pairwise_cons.mpr ⟨?_, ih hys⟩
      intro z hz
      have hz' : z = x ∨ z ∈ ys := by
        simpa using (insertKeyDesc_perm key x ys).mem_iff.mp hz
      rcases hz' with rfl | hz'
      · exact hc
      · exact hy z hz'
    · rw [insertKeyDesc, if_neg hc]
      have hyx : key y ≤ key x := le_of_not_le hc
      refine List.pairwise_cons.mpr ⟨?_, hp⟩
      intro z hz
      rcases List.mem_cons.mp hz with rfl | hz'
      · exact hyx
      · exact le_trans (hy z hz') hyx

theorem sortKeyDesc_pairwise {α β : Type} [LinearOrder β] (key : α → β) (l : List α) :
    List.Pairwise (fun a b => key b ≤ key a) (sortKeyDesc key l) := by
  induction l with
  | nil => simp [sortKeyDesc]
  | cons y ys ih => exact insertKeyDesc_pairwise key y (sortKeyDesc key ys) ih

theorem jsSliceZero_zero {α : Type} (l : List α) : jsSliceZero 0 l = [] := by
  simp [jsSliceZero]

theorem jsSliceZero_sublist {α : Type} (lim : Int) (l : List α) :
    List.Sublist (jsSliceZero lim l) l := by
  unfold jsSliceZero
  exact List.take_sublist _ _

theorem jsSliceZero_length_le {α : Type} (lim : Int) (l : List α) (h : 0 ≤ lim) :
    (jsSliceZero lim l).length ≤ lim.toNat := by
  unfold jsSliceZero
  rw [if_neg (not_lt.mpr h), List.length_take]
  exact min_le_left _ _

theorem jsSliceZero_all {α : Type} (lim : Int) (l : List α)
    (h : (l.length : Int) ≤ lim) : jsSliceZero lim l = l := by
  have h0 : ¬ lim < 0 := by omega
  unfold jsSliceZero
  rw [if_neg h0]
  apply List.take_of_length_le
  omega

theorem filterMap_ite_eq_map_filter {α β : Type} (P : α → Prop) [DecidablePred P]
    (g : α → β) (l : List α) :
    (l.filterMap (fun u => if P u then some (g u) else none)) =
      (l.filter (fun u => decide (P u))).map g := by
  induction l with
  | nil => rfl
  | cons x xs ih =>
    by_cases hp : P x
    · simp [List.filterMap_cons, List.filter_cons, hp, ih]
    · simp [List.filterMap_cons, List.filter_cons, hp, ih]

theorem levAux_self : ∀ s : List Char, levAux s s = 0 := by
  intro s
  induction s with
  | nil => rfl
  | cons a s ih =>
    show min (min (levAux (a :: s) s + 1) (levAux s (a :: s) + 1))
        (levAux s s + (if a = a then 0 else 1)) = 0
    simp [ih]

theorem levAux_eq_zero : ∀ s t : List Char, levAux s t = 0 → s = t := by
  intro s
  induction s with
  | nil =>
    intro t h
    cases t with
    | nil => rfl
    | cons b t => simp [levAux] at h
  | cons a s ih =>
    intro t h
    cases t with
    | nil => simp [levAux, levWith] at h
    | cons b t =>
      have h0 : min (min (levAux (a :: s) t + 1) (levAux s (b :: t) + 1))
          (levAux s t + (if a = b then 0 else 1)) = 0 := h
      have h1 : levAux s t + (if a = b then 0 else 1) = 0 := by
        rcases Nat.min_eq_zero_iff.mp h0 with h2 | h2
        · rcases Nat.min_eq_zero_iff.mp h2 with h3 | h3 <;> omega
        · exact h2
      by_cases hab : a = b
      · rw [if_pos hab] at h1
        rw [hab, ih t (by omega)]
      · rw [if_neg hab] at h1
        omega

theorem levenshteinDistance_self (s : String) : levenshteinDistance s s = 0 :=
  levAux_self s.data

theorem levenshteinDistance_eq_zero {s t : String}
    (h : levenshteinDistance s t = 0) : s = t := by
  have hd := levAux_eq_zero s.data t.data h
  cases s with
  | mk ds =>
    cases t with
    | mk dt => exact congrArg String.mk hd

theorem province_cell_code_ne {d : Dataset}
    (hnd : ((allList d).map (fun v => v.code)).Nodup)
    {p c : AdministrativeUnit} (hp : p ∈ d.provinces) (hc : c ∈ d.cells) :
    p.code ≠ c.code := by
  intro he
  have hpl : p ∈ allList d := by simp [allList, hp]
  have hcl : c ∈ allList d := by simp [allList, hc]
  have hpc : p = c := List.inj_on_of_nodup_map hnd hpl hcl he
  subst hpc
  have hN : (allList d).Nodup := hnd.of_map
  have hsplit : allList d =
      (d.provinces ++ d.districts ++ d.sectors) ++ (d.cells ++ d.villages) := by
    simp [allList, List.append_assoc]
  rw [hsplit] at hN
  have hdisj := (List.nodup_append.mp hN).2.2
  have h1 : p ∈ d.provinces ++ d.districts ++ d.sectors := by simp [hp]
  have h2 : p ∈ d.cells ++ d.villages := by simp [hc]
  exact hdisj h1 h2

theorem validate_isValid_anatomy (d : Dataset) (p c : String) :
    (validateParentChildRelationship d p c).isValid = true ↔
      ((∃ pu, getByCode d p = some pu) ∧
       (∃ ch, getByCode d c = some ch ∧ ch.parentCode = some p) ∧
       levelsAdjacentB (getCodeLevel p) (getCodeLevel c) = true) := by
  cases hp : getByCode d p with
  | none => simp [validateParentChildRelationship, hp]
  | some pu =>
    cases hc : getByCode d c with
    | none => simp [validateParentChildRelationship, hp, hc]
    | some ch =>
      cases hpl : getCodeLevel p with
      | none => simp [validateParentChildRelationship, hp, hc, hpl, levelsAdjacentB]
      | some pl =>
        cases hcl : getCodeLevel c with
        | none => simp [validateParentChildRelationship, hp, hc, hpl, hcl, levelsAdjacentB]
        | some cl =>
          by_cases hpar : ch.parentCode = some p
          · by_cases hadj : validChildLevel pl = some cl
            · simp [validateParentChildRelationship, hp, hc, hpl, hcl, hpar, hadj,
                levelsAdjacentB]
            · simp [validateParentChildRelationship, hp, hc, hpl, hcl, hpar, hadj,
                levelsAdjacentB]
          · simp [validateParentChildRelationship, hp, hc, hpl, hcl, hpar, levelsAdjacentB]

end RwandaGeo

namespace RwandaGeo

/-! Claim theorems. -/

/-- C1: for every unit u present in any of the five record
collections, looking its code up in the index (getByCode) returns u
itself, and looking up a code that belongs to no unit returns the
explicit absent result; the operation is a total function, so it never
raises.  The uniqueness hypothesis is invariant 1 of the
specification, which the shipped dataset satisfies. -/
theorem lookup_roundtrip (d : Dataset)
    (hnd : ((allList d).map (fun v => v.code)).Nodup) :
    (∀ u ∈ allList d, getByCode d u.code = some u) ∧
    (∀ c : String, (∀ u ∈ allList d, u.code ≠ c) → getByCode d c = none) := by
  constructor
  · intro u hu
    exact getByCode_self hu hnd
  · intro c hc
    exact getByCode_none hc

/-- Witness for C1 at the modelled dataset excerpt. -/
theorem lookup_roundtrip_witness :
    getByCode demo "RW-01" = some demoProvince ∧ getByCode demo "RW-99" = none := by
  have h := lookup_roundtrip demo (by decide)
  exact ⟨h.1 demoProvince (by decide), h.2 "RW-99" (by decide)⟩

/-- C2 counterexample: in helpers.ts, isValidCode accepts the
format-valid code RW-AB although no unit carries it, and rejects the
dataset code RW-01 although lookup succeeds, so isValidCode is not
equivalent to a successful lookup. -/
theorem isValidCode_format_only_cex :
    isValidCode "RW-AB" = true ∧ getByCode demo "RW-AB" = none ∧
    isValidCode "RW-01" = false ∧ getByCode demo "RW-01" = some demoProvince := by
  decide

/-- C2 amended: the equivalence of isValidCode with a successful
lookup holds for the lazy-loader helpers variant, where isValidCode is
membership in the same map that getByCode reads; the helpers.ts
isValidCode is a pure format check independent of the dataset. -/
theorem isValidCodeLazy_iff_lookup (d : Dataset) (c : String) :
    isValidCodeLazy d c = true ↔ ∃ u, getByCode d c = some u := by
  simp [isValidCodeLazy, Option.isSome_iff_exists]

/-- C3: getHierarchy returns the empty sequence on an unknown code;
on a known code it returns a sequence ending in the unit itself and
ordered root first along parentCode links (each element carries the
code its successor names as parent); and when the parentCode of the
unit does not resolve, the walk stops with the partial chain, no
exception (the embedding is a total function). -/
theorem getHierarchy_spec (d : Dataset) (c : String) :
    (getByCode d c = none → getHierarchy d c = []) ∧
    (∀ u, getByCode d c = some u →
      (getHierarchy d c).getLast? = some u ∧
      List.Chain' (fun a b => b.parentCode = some a.code) (getHierarchy d c) ∧
      (∀ pc, u.parentCode = some pc → getByCode d pc = none →
        getHierarchy d c = [u])) := by
  constructor
  · intro h
    simp [getHierarchy, h]
  · intro u hu
    refine ⟨?_, ?_, ?_⟩
    · simp only [getHierarchy, hu]
      rw [walkUp_getLast? d (hierarchyFuel d) u u []]
      rfl
    · simp only [getHierarchy, hu]
      exact walkUp_chain' d (hierarchyFuel d) u [] (by simp)
    · intro pc hpc hnone
      simp only [getHierarchy, hu]
      exact walkUp_dangling d (hierarchyFuel d) u pc hpc hnone

/-- Witness for C3 at the modelled dataset excerpt. -/
theorem getHierarchy_spec_witness :
    (getHierarchy demo "RW-V-00001").getLast? = some demoVillage1 ∧
    List.Chain' (fun a b => b.parentCode = some a.code)
      (getHierarchy demo "RW-V-00001") := by
  have h := (getHierarchy_spec demo "RW-V-00001").2 demoVillage1 (by decide)
  exact ⟨h.1, h.2.1⟩

/-- C4: on the shipped code scheme, the cell RW-C-0001 declares the
sector RW-S-001 as parent and the sector resolves, yet
getDirectChildren of the sector is empty, because getCodeLevel
classifies the two-segment code RW-S-001 as a district and the
function therefore filters sectors instead of cells; the second half
of the claim, membership of the parent in the ancestor chain, does
hold at this input. -/
theorem getDirectChildren_cell_bug :
    demoCell ∈ demo.cells ∧
    demoCell.parentCode = some demoSector.code ∧
    getByCode demo demoSector.code = some demoSector ∧
    getCodeLevel demoSector.code = some Level.district ∧
    getDirectChildren demo demoSector.code = [] ∧
    demoCell ∉ getDirectChildren demo demoSector.code ∧
    demoSector ∈ getHierarchy demo demoCell.code := by
  decide

/-- C5: the valid flag of validateHierarchyIntegrity is true exactly
when the issue list is empty, and summary.totalUnits is the sum of the
five collection sizes; but on the modelled dataset excerpt, which
satisfies every section 3 invariant and uses the shipped code scheme,
the audit is not valid, because getCodeLevel misclassifies the
prefix-style codes and the audit reports invalid-parent and
missing-unit issues. -/
theorem validateHierarchyIntegrity_spec :
    (∀ d : Dataset, (validateHierarchyIntegrity d).isValid = true ↔
      (validateHierarchyIntegrity d).issues = []) ∧
    (∀ d : Dataset, (validateHierarchyIntegrity d).summary.totalUnits =
      d.provinces.length + d.districts.length + d.sectors.length +
        d.cells.length + d.villages.length) ∧
    DatasetInvariants demo ∧
    (validateHierarchyIntegrity demo).isValid = false ∧
    (validateHierarchyIntegrity demo).issues ≠ [] := by
  refine ⟨?_, ?_, by decide, by decide, by decide⟩
  · intro d
    have h : (validateHierarchyIntegrity d).isValid =
        (validateHierarchyIntegrity d).issues.isEmpty := rfl
    rw [h, List.isEmpty_iff]
  · intro d
    have h : (validateHierarchyIntegrity d).summary.totalUnits = (allList d).length := rfl
    rw [h]
    simp only [allList, List.length_append]

/-- C10: getHierarchy and getFullHierarchy are extensionally equal:
the two loop bodies differ only in the order of their bail-out
branches. -/
theorem getHierarchy_eq_getFullHierarchy (d : Dataset) (c : String) :
    getHierarchy d c = getFullHierarchy d c := by
  unfold getHierarchy getFullHierarchy
  cases getByCode d c with
  | none => rfl
  | some u => exact walkUp_eq_walkUpFull d (hierarchyFuel d) u [u]


/-- C6: validateParentChildRelationship reports invalid whenever
either code is unknown, or the stored parentCode of the child differs
from the given parent code, or the two classified levels are not
adjacent in the ladder; in particular it reports invalid for every
province paired with every village of a well-formed dataset (there the
stored parent of the village is a cell, never the province). -/
theorem validateParentChild_spec (d : Dataset) :
    (∀ p c : String,
      (getByCode d p = none ∨ getByCode d c = none ∨
        (∀ ch, getByCode d c = some ch → ch.parentCode ≠ some p) ∨
        levelsAdjacentB (getCodeLevel p) (getCodeLevel c) = false) →
      (validateParentChildRelationship d p c).isValid = false) ∧
    (DatasetInvariants d →
      ∀ pu ∈ d.provinces, ∀ v ∈ d.villages,
        (validateParentChildRelationship d pu.code v.code).isValid = false) := by
  constructor
  · intro p c hdisj
    cases hval : (validateParentChildRelationship d p c).isValid with
    | false => rfl
    | true =>
      exfalso
      obtain ⟨⟨pu, hp⟩, ⟨ch, hc, hpar⟩, hadj⟩ := (validate_isValid_anatomy d p c).mp hval
      rcases hdisj with h1 | h2 | h3 | h4
      · rw [h1] at hp; cases hp
      · rw [h2] at hc; cases hc
      · exact h3 ch hc hpar
      · rw [hadj] at h4; cases h4
  · intro hinv pu hpu v hv
    obtain ⟨hnd, _, _, _, _, hvill⟩ := hinv
    cases hval : (validateParentChildRelationship d pu.code v.code).isValid with
    | false => rfl
    | true =>
      exfalso
      obtain ⟨⟨pu2, _⟩, ⟨ch, hc, hpar⟩, _⟩ := (validate_isValid_anatomy d _ _).mp hval
      have hvmem : v ∈ allList d := by simp [allList, hv]
      have hvc : getByCode d v.code = some v := getByCode_self hvmem hnd
      rw [hvc] at hc
      injection hc with hc
      subst hc
      obtain ⟨cl, hclmem, hpc⟩ := hvill v hv
      rw [hpc] at hpar
      injection hpar with hpar
      exact province_cell_code_ne hnd hpu hclmem hpar.symm

/-- Witness for C6 at the modelled dataset: the only province paired
with the first village. -/
theorem validateParentChild_spec_witness :
    (validateParentChildRelationship demo "RW-01" "RW-V-00001").isValid = false :=
  (validateParentChild_spec demo).2 (by decide) demoProvince (by decide)
    demoVillage1 (by decide)

/-- C9 counterexample: with the negative limit -1 the searches are not
empty, because Array.prototype.slice(0, -1) keeps all but the last
element; here each search finds two matches and returns one. -/
theorem searchLimitNeg_cex :
    searchByPartialCode tiny "RW" (-1) ≠ [] ∧ getSuggestions tiny "rw" (-1) ≠ [] := by
  decide

/-- C9 amended: a limit of exactly zero short-circuits every search
operation taking a limit to the empty result; negative limits instead
follow the slice-from-the-end semantics refuted separately. -/
theorem searchLimitZero (d : Dataset) (q : String) (t : Int) :
    fuzzySearchByName d q t 0 = [] ∧ searchByPartialCode d q 0 = [] ∧
    getSuggestions d q 0 = [] := by
  refine ⟨?_, ?_, ?_⟩ <;>
    simp [fuzzySearchByName, searchByPartialCode, getSuggestions, jsSliceZero]

/-- C8 counterexample: for the query a, the candidate name b is
strictly closer than the candidate name bc, yet both receive the
similarity score zero, because the scores are normalized by different
name lengths; strictly smaller distance therefore does not imply
strictly greater score. -/
theorem fuzzyScore_mono_cex :
    levenshteinDistance "a" (strLower "b") < levenshteinDistance "a" (strLower "bc") ∧
    ¬ fuzzyScore "a" "bc" < fuzzyScore "a" "b" := by
  constructor
  · decide
  · have h1 : levenshteinDistance "a" (strLower "b") = 1 := by decide
    have h2 : levenshteinDistance "a" (strLower "bc") = 2 := by decide
    have h3 : "a".data.length = 1 := rfl
    have h4 : "b".data.length = 1 := rfl
    have h5 : "bc".data.length = 2 := rfl
    unfold fuzzyScore
    rw [h1, h2, h3, h4, h5]
    norm_num

/-- C8 amended: the strict monotonicity of the score in the distance
holds for a fixed query once the two candidates share the same
normalizing denominator (the longer of query and name), with a
nonempty name; the counterexample shows the unrestricted claim fails
when the denominators differ. -/
theorem fuzzyScore_mono (nq nameA nameB : String)
    (hB : nameB.data ≠ [])
    (hm : max nq.data.length nameA.data.length = max nq.data.length nameB.data.length)
    (hd : levenshteinDistance nq (strLower nameA) < levenshteinDistance nq (strLower nameB)) :
    fuzzyScore nq nameB < fuzzyScore nq nameA := by
  unfold fuzzyScore
  rw [hm]
  have hmpos : (0 : ℚ) < ((max nq.data.length nameB.data.length : Nat) : ℚ) := by
    have h1 : 0 < nameB.data.length := List.length_pos.mpr hB
    have h2 : 0 < max nq.data.length nameB.data.length :=
      lt_of_lt_of_le h1 (le_max_right _ _)
    exact_mod_cast h2
  have hdq : (levenshteinDistance nq (strLower nameA) : ℚ) <
      (levenshteinDistance nq (strLower nameB) : ℚ) := by exact_mod_cast hd
  have hdiv : (levenshteinDistance nq (strLower nameA) : ℚ) /
        ((max nq.data.length nameB.data.length : Nat) : ℚ) <
      (levenshteinDistance nq (strLower nameB) : ℚ) /
        ((max nq.data.length nameB.data.length : Nat) : ℚ) :=
    div_lt_div_of_pos_right hdq hmpos
  linarith

/-- Witness for the amended C8 statement at a concrete query and two
equal-length names. -/
theorem fuzzyScore_mono_witness : fuzzyScore "a" "b" < fuzzyScore "a" "a" :=
  fuzzyScore_mono "a" "a" "b" (by decide) rfl (by decide)


/-- Rewrites fuzzySearchByName into its filter, map, sort, slice
pipeline. -/
theorem fuzzySearchByName_eq (d : Dataset) (q : String) (t k : Int) :
    fuzzySearchByName d q t k =
      jsSliceZero k (sortKeyDesc (fun r : ScoredUnit => r.score)
        (((allList d).filter (fun u =>
            decide ((levenshteinDistance (strTrim (strLower q)) (strLower u.name) : Int) <= t))).map
          (fun u => ⟨u, fuzzyScore (strTrim (strLower q)) u.name⟩))) := by
  simp only [fuzzySearchByName]
  rw [filterMap_ite_eq_map_filter
    (fun u : AdministrativeUnit =>
      (levenshteinDistance (strTrim (strLower q)) (strLower u.name) : Int) <= t)
    (fun u : AdministrativeUnit =>
      (⟨u, fuzzyScore (strTrim (strLower q)) u.name⟩ : ScoredUnit))
    (allList d)]

/-- C7: every result of fuzzySearchByName is a unit of the dataset
whose lowercased name is within the threshold of the normalized query,
scored one minus distance over the longer length (so a name equal to
the normalized query scores one, and with threshold zero only such
names are returned); the result list is sorted by descending score and
holds at most the limit; and every matching unit appears whenever the
match count fits inside the limit. -/
theorem fuzzySearchByName_spec (d : Dataset) (q : String) (t k : Int) :
    (∀ r ∈ fuzzySearchByName d q t k,
      r.unit ∈ allList d ∧
      (levenshteinDistance (strTrim (strLower q)) (strLower r.unit.name) : Int) <= t ∧
      r.score = fuzzyScore (strTrim (strLower q)) r.unit.name ∧
      (strLower r.unit.name = strTrim (strLower q) → r.score = 1) ∧
      (t = 0 → strLower r.unit.name = strTrim (strLower q))) ∧
    List.Pairwise (fun a b : ScoredUnit => b.score <= a.score) (fuzzySearchByName d q t k) ∧
    (0 <= k → (fuzzySearchByName d q t k).length <= k.toNat) ∧
    (∀ u ∈ allList d,
      (levenshteinDistance (strTrim (strLower q)) (strLower u.name) : Int) <= t →
      (((allList d).filter (fun v =>
          decide ((levenshteinDistance (strTrim (strLower q)) (strLower v.name) : Int) <= t))).length : Int) <= k →
      ∃ r ∈ fuzzySearchByName d q t k, r.unit = u) := by
  refine ⟨?_, ?_, ?_, ?_⟩
  · intro r hr
    rw [fuzzySearchByName_eq] at hr
    have hr1 := (jsSliceZero_sublist k _).subset hr
    have hr2 := (sortKeyDesc_perm (fun r : ScoredUnit => r.score) _).mem_iff.mp hr1
    obtain ⟨u, hu, rfl⟩ := List.mem_map.mp hr2
    obtain ⟨hmem, hcond⟩ := List.mem_filter.mp hu
    have hdist : (levenshteinDistance (strTrim (strLower q)) (strLower u.name) : Int) <= t :=
      of_decide_eq_true hcond
    refine ⟨hmem, hdist, rfl, ?_, ?_⟩
    · intro hname
      show fuzzyScore (strTrim (strLower q)) u.name = 1
      unfold fuzzyScore
      rw [hname, levenshteinDistance_self]
      norm_num
    · intro ht
      subst ht
      have h0 : levenshteinDistance (strTrim (strLower q)) (strLower u.name) = 0 := by
        omega
      exact (levenshteinDistance_eq_zero h0).symm
  · rw [fuzzySearchByName_eq]
    exact (sortKeyDesc_pairwise (fun r : ScoredUnit => r.score) _).sublist
      (jsSliceZero_sublist k _)
  · intro hk
    rw [fuzzySearchByName_eq]
    exact jsSliceZero_length_le k _ hk
  · intro u hu hdist hlen
    rw [fuzzySearchByName_eq]
    have humem : u ∈ (allList d).filter (fun v =>
        decide ((levenshteinDistance (strTrim (strLower q)) (strLower v.name) : Int) <= t)) :=
      List.mem_filter.mpr ⟨hu, decide_eq_true hdist⟩
    have hmap : (⟨u, fuzzyScore (strTrim (strLower q)) u.name⟩ : ScoredUnit) ∈
        ((allList d).filter (fun v =>
          decide ((levenshteinDistance (strTrim (strLower q)) (strLower v.name) : Int) <= t))).map
          (fun w => (⟨w, fuzzyScore (strTrim (strLower q)) w.name⟩ : ScoredUnit)) :=
      List.mem_map_of_mem _ humem
    have hsortmem := (sortKeyDesc_perm (fun r : ScoredUnit => r.score) _).mem_iff.mpr hmap
    have hlensort : ((sortKeyDesc (fun r : ScoredUnit => r.score)
        (((allList d).filter (fun v =>
          decide ((levenshteinDistance (strTrim (strLower q)) (strLower v.name) : Int) <= t))).map
          (fun w => (⟨w, fuzzyScore (strTrim (strLower q)) w.name⟩ : ScoredUnit)))).length : Int) <= k := by
      rw [(sortKeyDesc_perm (fun r : ScoredUnit => r.score) _).length_eq, List.length_map]
      exact hlen
    rw [jsSliceZero_all k _ hlensort]
    exact ⟨⟨u, fuzzyScore (strTrim (strLower q)) u.name⟩, hsortmem, rfl⟩

/-- Witness for C7 at the small search dataset. -/
theorem fuzzySearchByName_spec_witness :
    (∃ r ∈ fuzzySearchByName tiny "a" 1 10, r.unit = tinyProvince) ∧
    List.Pairwise (fun a b : ScoredUnit => b.score <= a.score)
      (fuzzySearchByName tiny "a" 1 10) ∧
    (fuzzySearchByName tiny "a" 1 10).length <= 10 := by
  have h := fuzzySearchByName_spec tiny "a" 1 10
  refine ⟨h.2.2.2 tinyProvince (by decide) (by decide) (by decide), h.2.1, ?_⟩
  have hl := h.2.2.1 (by norm_num)
  simpa using hl

end RwandaGeo
